import Mathlib

/-!
Shallow embedding of the whale-consensus detection core of the repository
(`src/services/WhaleConsensusMonitor.ts` and the enhanced monitor variant).

Purchase amounts are modelled as rationals, timestamps as integers
(milliseconds since epoch, as `Date.getTime()` returns).  Maps keyed by
strings are modelled as association lists preserving insertion order,
matching the iteration order of a JavaScript `Map`; a JavaScript `Set`
of strings is modelled as a list of strings with membership testing.
-/

namespace Whale

/-- Record `TokenPurchase` (WhaleConsensusMonitor.ts, lines 60-72); only the
fields read by the consensus logic are modelled. -/
structure TokenPurchase where
  walletAddress : String
  tokenMint : String
  amountSol : ℚ
  amountUsd : ℚ
  signature : String
  timestamp : ℤ
deriving Repr, DecidableEq

/-- Field `consensusTimeWindow = 15 * 60 * 1000` (base monitor, line 104).
The enhanced monitor uses 30 minutes; functions below take the window
as a parameter, mirroring the instance field. -/
def consensusTimeWindow : ℤ := 15 * 60 * 1000

/-- The filter `(currentTime - p.timestamp.getTime()) <= this.consensusTimeWindow`
applied both in `addPurchasesToConsensusTracking` (lines 457-459) and in
`analyzeWhaleConsensus` (lines 475-477). -/
def filterRecent (windowMs now : ℤ) (ps : List TokenPurchase) : List TokenPurchase :=
  ps.filter (fun p => decide (now - p.timestamp ≤ windowMs))

/-- The dedup loop of `analyzeWhaleConsensus` (lines 480-487): a `Map` keyed by
`walletAddress`, inserting only when the key is absent; `seen` is the key set,
output order is first-insertion order as for `Array.from(map.values())`. -/
def dedupGo (seen : List String) : List TokenPurchase → List TokenPurchase
  | [] => []
  | p :: rest =>
    if p.walletAddress ∈ seen then dedupGo seen rest
    else p :: dedupGo (p.walletAddress :: seen) rest

/-- Dedup result `uniqueWhales`: one event per distinct wallet, first occurrence wins. -/
def uniqueWhales (ps : List TokenPurchase) : List TokenPurchase :=
  dedupGo [] ps

/-- Sum `uniquePurchases.reduce((sum, p) => sum + p.amountSol, 0)` (line 495). -/
def totalAmountSol (ps : List TokenPurchase) : ℚ :=
  ps.foldl (fun s p => s + p.amountSol) 0

/-- Sum `uniquePurchases.reduce((sum, p) => sum + p.amountUsd, 0)` (line 496). -/
def totalAmountUsd (ps : List TokenPurchase) : ℚ :=
  ps.foldl (fun s p => s + p.amountUsd) 0

/-- Value `Math.min(...timestamps)` (line 498); 0 for the empty list (never hit by
the analysis loop, which requires at least `MIN_WHALES_FOR_CONSENSUS` events). -/
def minTimestamp : List TokenPurchase → ℤ
  | [] => 0
  | p :: rest => rest.foldl (fun m q => min m q.timestamp) p.timestamp

/-- Value `Math.max(...timestamps)` (line 499). -/
def maxTimestamp : List TokenPurchase → ℤ
  | [] => 0
  | p :: rest => rest.foldl (fun m q => max m q.timestamp) p.timestamp

/-- Record `WhaleConsensus` (lines 75-86); token symbol/name enrichment
fields are display-only and omitted. -/
structure WhaleConsensus where
  tokenMint : String
  whales : List TokenPurchase
  totalWhales : ℕ
  totalAmountSol : ℚ
  totalAmountUsd : ℚ
  firstPurchaseTime : ℤ
  lastPurchaseTime : ℤ
  consensusStrength : ℚ
deriving Repr, DecidableEq

/-- Construction of the consensus object from the deduplicated purchases
(`analyzeWhaleConsensus`, lines 494-515). -/
def mkConsensus (mint : String) (uniquePurchases : List TokenPurchase) : WhaleConsensus :=
  { tokenMint := mint
    whales := uniquePurchases
    totalWhales := uniquePurchases.length
    totalAmountSol := totalAmountSol uniquePurchases
    totalAmountUsd := totalAmountUsd uniquePurchases
    firstPurchaseTime := minTimestamp uniquePurchases
    lastPurchaseTime := maxTimestamp uniquePurchases
    consensusStrength := (uniquePurchases.length : ℚ) * 100 + totalAmountUsd uniquePurchases }

/-- Per-token body of the `analyzeWhaleConsensus` loop (lines 473-518):
filter to the window, dedup by wallet, and qualify when
`uniquePurchases.length >= MIN_WHALES_FOR_CONSENSUS`. -/
def analyzeToken (windowMs now : ℤ) (minWhales : ℕ) (mint : String)
    (ps : List TokenPurchase) : Option WhaleConsensus :=
  let recentPurchases := filterRecent windowMs now ps
  let uniquePurchases := uniqueWhales recentPurchases
  if minWhales ≤ uniquePurchases.length then some (mkConsensus mint uniquePurchases) else none

/-- The alert key `` `${consensus.tokenMint}_${consensus.totalWhales}` `` (line 526). -/
def consensusId (mint : String) (totalWhales : ℕ) : String :=
  mint ++ "_" ++ toString totalWhales

/-- Alert key of a consensus object. -/
def idOf (c : WhaleConsensus) : String :=
  consensusId c.tokenMint c.totalWhales

/-- Insertion step of the descending sort by `consensusStrength` (line 522). -/
def insertByStrength (c : WhaleConsensus) : List WhaleConsensus → List WhaleConsensus
  | [] => [c]
  | d :: rest =>
    if c.consensusStrength ≤ d.consensusStrength then d :: insertByStrength c rest
    else c :: d :: rest

/-- Sort `consensusTokens.sort((a, b) => b.consensusStrength - a.consensusStrength)`. -/
def sortByStrengthDesc (cs : List WhaleConsensus) : List WhaleConsensus :=
  cs.foldr insertByStrength []

/-- The alert-gating loop (lines 525-532): for each consensus, when its id is
not in `alertedConsensus`, add the id and trigger the alert.  Returns the
updated fired-signal set and the emitted alerts in emission order. -/
def fireAlerts : List WhaleConsensus → List String → List String × List WhaleConsensus
  | [], alerted => (alerted, [])
  | c :: rest, alerted =>
    if idOf c ∈ alerted then fireAlerts rest alerted
    else
      let r := fireAlerts rest (idOf c :: alerted)
      (r.1, c :: r.2)

/-- One full `analyzeWhaleConsensus` pass over the tracked-token map:
qualify every token, sort by strength, then gate and emit. -/
def analyzePass (windowMs now : ℤ) (minWhales : ℕ)
    (windows : List (String × List TokenPurchase)) (alerted : List String) :
    List String × List WhaleConsensus :=
  let consensusTokens := windows.filterMap (fun w => analyzeToken windowMs now minWhales w.1 w.2)
  fireAlerts (sortByStrengthDesc consensusTokens) alerted

/-- The dedup loop of the enhanced `analyzeEnhancedWhaleConsensus`
(part_006, lines 2550-2560): like `dedupGo`, but the representative stored for
a first-seen wallet has `amountUsd` recomputed as
`purchase.amountSol * currentSolPrice`. -/
def dedupRecomputeGo (currentSolPrice : ℚ) (seen : List String) :
    List TokenPurchase → List TokenPurchase
  | [] => []
  | p :: rest =>
    if p.walletAddress ∈ seen then dedupRecomputeGo currentSolPrice seen rest
    else { p with amountUsd := p.amountSol * currentSolPrice } ::
      dedupRecomputeGo currentSolPrice (p.walletAddress :: seen) rest

/-- Unique whales of the enhanced analysis, with `amountUsd` recomputed at the
current SOL price. -/
def uniqueWhalesEnhanced (currentSolPrice : ℚ) (ps : List TokenPurchase) : List TokenPurchase :=
  dedupRecomputeGo currentSolPrice [] ps

/-- Lookup `this.recentWhalePurchases.get(tokenMint)`, `[]` when the key is absent. -/
def getWindow (mint : String) (ws : List (String × List TokenPurchase)) : List TokenPurchase :=
  match ws.find? (fun w => w.1 == mint) with
  | some w => w.2
  | none => []

/-- Update `this.recentWhalePurchases.set(tokenMint, ps)` on an association list. -/
def setWindow (mint : String) (ps : List TokenPurchase) :
    List (String × List TokenPurchase) → List (String × List TokenPurchase)
  | [] => [(mint, ps)]
  | w :: rest => if w.1 == mint then (mint, ps) :: rest else w :: setWindow mint ps rest

/-- Body of the `addPurchasesToConsensusTracking` loop (lines 444-462): push the
new purchase onto its token's list, then keep only events inside the window and
store the filtered list back. -/
def addPurchase (windowMs now : ℤ) (ws : List (String × List TokenPurchase))
    (p : TokenPurchase) : List (String × List TokenPurchase) :=
  setWindow p.tokenMint (filterRecent windowMs now (getWindow p.tokenMint ws ++ [p])) ws

/-- Loop `addPurchasesToConsensusTracking(purchases)` (lines 441-463). -/
def addPurchasesToConsensusTracking (windowMs now : ℤ) (ps : List TokenPurchase)
    (ws : List (String × List TokenPurchase)) : List (String × List TokenPurchase) :=
  ps.foldl (addPurchase windowMs now) ws

/-- Fetching: `checkWalletForConsensus` wraps its body in try/catch and returns `[]` on
any error (lines 434-437); the outer batch handler (lines 347-350) also
swallows per-wallet failures.  A fallible fetch is modelled as `Except`. -/
def fetchSafe (fetch : String → Except String (List TokenPurchase)) (w : String) :
    List TokenPurchase :=
  match fetch w with
  | Except.ok ps => ps
  | Except.error _ => []

/-- The detector's mutable consensus state: `recentWhalePurchases` and
`alertedConsensus` (lines 103, 107). -/
structure DetectorState where
  recentWhalePurchases : List (String × List TokenPurchase)
  alertedConsensus : List String
deriving Repr, DecidableEq

/-- One `detectWhaleConsensus` cycle (lines 306-382): fetch each monitored
wallet's new purchases (failures yield no events and abort nothing), ingest
them into the per-token windows, then run the consensus analysis pass. -/
def runCycle (windowMs now : ℤ) (minWhales : ℕ)
    (fetch : String → Except String (List TokenPurchase)) (wallets : List String)
    (st : DetectorState) : DetectorState × List WhaleConsensus :=
  let ws := wallets.foldl
    (fun acc w => addPurchasesToConsensusTracking windowMs now (fetchSafe fetch w) acc)
    st.recentWhalePurchases
  let r := analyzePass windowMs now minWhales ws st.alertedConsensus
  ({ recentWhalePurchases := ws, alertedConsensus := r.1 }, r.2)

/-- Input of one evaluation pass: the clock instant and the tracked-token map
at that instant. -/
structure CycleInput where
  now : ℤ
  windows : List (String × List TokenPurchase)

/-- A whole detector lifetime as a sequence of evaluation passes threading
`alertedConsensus`; returns the final fired-signal set and the concatenated
alert trace delivered to the sink. -/
def runPasses (windowMs : ℤ) (minWhales : ℕ) :
    List CycleInput → List String → List String × List WhaleConsensus
  | [], alerted => (alerted, [])
  | cyc :: rest, alerted =>
    let r1 := analyzePass windowMs cyc.now minWhales cyc.windows alerted
    let r2 := runPasses windowMs minWhales rest r1.1
    (r2.1, r1.2 ++ r2.2)

/-- Number of alerts in a trace carrying the signal `(M, N)`. -/
def countSignal (M : String) (N : ℕ) (out : List WhaleConsensus) : ℕ :=
  out.countP (fun c => c.tokenMint == M && c.totalWhales == N)

/-- Configured settings block of `manualWallets.json` (lines 18-24). -/
structure ConfigSettings where
  minPurchaseUsd : ℚ
  checkIntervalSeconds : ℤ
  minWhalesForConsensus : ℤ
deriving Repr, DecidableEq

/-- Effective configuration fields after `loadManualWallets`. -/
structure LoadedConfig where
  MIN_PURCHASE_USD : ℚ
  CHECK_INTERVAL : ℤ
  MIN_WHALES_FOR_CONSENSUS : ℤ
deriving Repr, DecidableEq

/-- JavaScript `x || d` on an integer `x`: `0` is falsy and replaced by the
default, every other integer (negative ones included) is truthy and kept. -/
def jsNumOr (x d : ℤ) : ℤ :=
  if x = 0 then d else x

/-- The settings assignment in `loadManualWallets` (lines 227-229):
`MIN_PURCHASE_USD = settings.minPurchaseUsd`,
`CHECK_INTERVAL = Math.max(settings.checkIntervalSeconds * 1000, 30000)`,
`MIN_WHALES_FOR_CONSENSUS = settings.minWhalesForConsensus || 2`. -/
def loadManualWalletsSettings (s : ConfigSettings) : LoadedConfig :=
  { MIN_PURCHASE_USD := s.minPurchaseUsd
    CHECK_INTERVAL := max (s.checkIntervalSeconds * 1000) 30000
    MIN_WHALES_FOR_CONSENSUS := jsNumOr s.minWhalesForConsensus 2 }

/-- The level chain of `calculateRiskScore` (lines 700-715); the `assessment`
display string set alongside each level is omitted. -/
def riskLevelOf (score : ℤ) : String :=
  if 80 ≤ score then "VERY HIGH"
  else if 60 ≤ score then "HIGH"
  else if 40 ≤ score then "MEDIUM"
  else "LOW"

/-- Function `calculateRiskScore(consensus)` of the base monitor (lines 676-718):
additive tiers for whale count, total USD, time clustering, and an
average-purchase bonus, then mapped to a level. -/
def calculateRiskScore (c : WhaleConsensus) : String × ℤ :=
  let s1 : ℤ := if 5 ≤ c.totalWhales then 30 else if 3 ≤ c.totalWhales then 20 else 10
  let s2 : ℤ := s1 + (if (10000 : ℚ) ≤ c.totalAmountUsd then 30
    else if (5000 : ℚ) ≤ c.totalAmountUsd then 20 else 10)
  let timeSpan : ℤ := c.lastPurchaseTime - c.firstPurchaseTime
  let s3 : ℤ := s2 + (if timeSpan ≤ 5 * 60 * 1000 then 30
    else if timeSpan ≤ 15 * 60 * 1000 then 20 else 10)
  let avgPurchase : ℚ := c.totalAmountUsd / (c.totalWhales : ℚ)
  let score : ℤ := s3 + (if (2000 : ℚ) ≤ avgPurchase then 10
    else if (1000 : ℚ) ≤ avgPurchase then 5 else 0)
  (riskLevelOf score, score)

/-- Modelled from the spec: the risk-score formula as §4.3 of the spec states
it — whale-count tier plus total-USD tier plus time-clustering tier plus the
per-whale-average bonus. -/
def specRiskScore (c : WhaleConsensus) : ℤ :=
  (if 5 ≤ c.totalWhales then 30 else if 3 ≤ c.totalWhales then 20 else 10) +
  (if (10000 : ℚ) ≤ c.totalAmountUsd then 30
    else if (5000 : ℚ) ≤ c.totalAmountUsd then 20 else 10) +
  (if c.lastPurchaseTime - c.firstPurchaseTime ≤ 5 * 60 * 1000 then 30
    else if c.lastPurchaseTime - c.firstPurchaseTime ≤ 15 * 60 * 1000 then 20 else 10) +
  (if (2000 : ℚ) ≤ c.totalAmountUsd / (c.totalWhales : ℚ) then 10
    else if (1000 : ℚ) ≤ c.totalAmountUsd / (c.totalWhales : ℚ) then 5 else 0)

/-- Function `generateTradingSignal(consensus)` of the base monitor (lines 721-755):
base confidence 50, plus 10 per whale, an average-amount bonus, and a
time-clustering bonus, capped at 95, then thresholded into a signal type. -/
def generateTradingSignal (c : WhaleConsensus) : String × ℤ :=
  let c1 : ℤ := 50 + (c.totalWhales : ℤ) * 10
  let avgAmount : ℚ := c.totalAmountUsd / (c.totalWhales : ℚ)
  let c2 : ℤ := c1 + (if (2000 : ℚ) ≤ avgAmount then 20
    else if (1000 : ℚ) ≤ avgAmount then 10 else 0)
  let timeSpan : ℤ := c.lastPurchaseTime - c.firstPurchaseTime
  let c3 : ℤ := c2 + (if timeSpan ≤ 5 * 60 * 1000 then 15
    else if timeSpan ≤ 15 * 60 * 1000 then 10 else 0)
  let confidence : ℤ := min c3 95
  let sigType : String :=
    if 80 ≤ confidence then "STRONG BUY"
    else if 70 ≤ confidence then "BUY"
    else if 60 ≤ confidence then "WEAK BUY"
    else "HOLD"
  (sigType, confidence)

/-- Concrete purchase: wallet W1 buys token T at t = 0. -/
def wA : TokenPurchase := ⟨"W1", "T", 1, 200, "sA", 0⟩

/-- Concrete purchase: wallet W1 buys token T again, a larger amount, at t = 1 min. -/
def wAbig : TokenPurchase := ⟨"W1", "T", 5, 1000, "sAbig", 60000⟩

/-- Concrete purchase: wallet W2 buys token T at t = 5 min. -/
def wB : TokenPurchase := ⟨"W2", "T", 2, 400, "sB", 300000⟩

/-- Concrete purchase: wallet W3 buys token T at t = 5 min. -/
def wC : TokenPurchase := ⟨"W3", "T", 3, 600, "sC", 300000⟩

/- ### Helper lemmas -/

theorem dedupGo_subset (seen : List String) (ps : List TokenPurchase) :
    ∀ q ∈ dedupGo seen ps, q ∈ ps := by
  induction ps generalizing seen with
  | nil => simp [dedupGo]
  | cons p rest ih =>
    intro q hq
    simp only [dedupGo] at hq
    split at hq
    · exact List.mem_cons_of_mem _ (ih seen q hq)
    · rcases List.mem_cons.mp hq with h | h
      · simp [h]
      · exact List.mem_cons_of_mem _ (ih _ q h)

/- ### C2: window expiry with strict inequality -/

/-- C2: after purging at instant `now`, every event strictly older than the
window is gone from the filtered list and from `uniqueWhales`, and prepending
such an event changes nothing downstream; an event exactly at the boundary is
retained; membership after the purge is decided solely by the event's own
timestamp, not by arrival order. -/
theorem window_expiry_strict (windowMs now : ℤ) (ps : List TokenPurchase)
    (e : TokenPurchase) :
    (windowMs < now - e.timestamp →
      e ∉ filterRecent windowMs now ps ∧
      e ∉ uniqueWhales (filterRecent windowMs now ps) ∧
      ∀ qs : List TokenPurchase,
        filterRecent windowMs now (e :: qs) = filterRecent windowMs now qs) ∧
    (now - e.timestamp = windowMs → e ∈ ps → e ∈ filterRecent windowMs now ps) ∧
    (e ∈ filterRecent windowMs now ps ↔ e ∈ ps ∧ now - e.timestamp ≤ windowMs) := by
  have hchar : e ∈ filterRecent windowMs now ps ↔ e ∈ ps ∧ now - e.timestamp ≤ windowMs := by
    simp [filterRecent, List.mem_filter]
  refine ⟨?_, ?_, hchar⟩
  · intro hexp
    have hnot : ¬ (now - e.timestamp ≤ windowMs) := by omega
    refine ⟨fun h => hnot (hchar.mp h).2, ?_, ?_⟩
    · intro h
      exact hnot ((hchar.mp (dedupGo_subset [] _ e h)).2)
    · intro qs
      simp only [filterRecent, List.filter_cons]
      rw [decide_eq_false hnot]
      simp
  · intro hb hm
    exact hchar.mpr ⟨hm, le_of_eq (by omega)⟩

/-- Witness for C2 at `windowDuration` = 15 min: the event at t = 0 is purged
at t = 16 min and absent from the unique whales; at t = 15 min exactly it is
retained. -/
theorem window_expiry_strict_witness :
    consensusTimeWindow < 960000 - wA.timestamp ∧
    wA ∉ uniqueWhales (filterRecent consensusTimeWindow 960000 [wA, wB]) ∧
    wA ∈ filterRecent consensusTimeWindow 900000 [wA, wB] := by
  refine ⟨by decide,
    ((window_expiry_strict consensusTimeWindow 960000 [wA, wB] wA).1 (by decide)).2.1,
    (window_expiry_strict consensusTimeWindow 900000 [wA, wB] wA).2.1 (by decide) (by decide)⟩

/- ### C3: dedup by wallet is first-wins -/

theorem dedupGo_countP_eq_zero (w : String) (seen : List String)
    (ps : List TokenPurchase) (hw : w ∈ seen) :
    (dedupGo seen ps).countP (fun q => q.walletAddress == w) = 0 := by
  induction ps generalizing seen with
  | nil => simp [dedupGo]
  | cons p rest ih =>
    simp only [dedupGo]
    split
    · exact ih seen hw
    · rename_i hmem
      have hne : (p.walletAddress == w) = false := by
        rw [beq_eq_false_iff_ne]
        intro h
        exact hmem (h ▸ hw)
      simp [List.countP_cons, hne, ih (p.walletAddress :: seen) (List.mem_cons_of_mem _ hw)]

theorem dedupGo_countP_le_one (w : String) (seen : List String)
    (ps : List TokenPurchase) :
    (dedupGo seen ps).countP (fun q => q.walletAddress == w) ≤ 1 := by
  induction ps generalizing seen with
  | nil => simp [dedupGo]
  | cons p rest ih =>
    simp only [dedupGo]
    split
    · exact ih seen
    · by_cases hpw : p.walletAddress = w
      · subst hpw
        have h0 := dedupGo_countP_eq_zero p.walletAddress (p.walletAddress :: seen) rest
          (List.mem_cons_self _ _)
        simp [List.countP_cons, h0]
      · have hne : (p.walletAddress == w) = false := beq_eq_false_iff_ne.mpr hpw
        simp only [List.countP_cons, hne]
        simpa using ih (p.walletAddress :: seen)

theorem dedupGo_find?_eq (w : String) (seen : List String) (ps : List TokenPurchase)
    (hw : w ∉ seen) :
    (dedupGo seen ps).find? (fun q => q.walletAddress == w) =
      ps.find? (fun q => q.walletAddress == w) := by
  induction ps generalizing seen with
  | nil => simp [dedupGo]
  | cons p rest ih =>
    simp only [dedupGo]
    split
    · rename_i hmem
      have hne : (p.walletAddress == w) = false := by
        rw [beq_eq_false_iff_ne]
        intro h
        exact hw (h ▸ hmem)
      rw [List.find?_cons_of_neg _ (by simp [hne]), ih seen hw]
    · rename_i hmem
      by_cases hpw : p.walletAddress = w
      · simp [List.find?_cons_of_pos, hpw]
      · have hne : (p.walletAddress == w) = false := beq_eq_false_iff_ne.mpr hpw
        rw [List.find?_cons_of_neg _ (by simp [hne]),
          List.find?_cons_of_neg _ (by simp [hne])]
        exact ih (p.walletAddress :: seen) (by
          intro h
          rcases List.mem_cons.mp h with h' | h'
          · exact hpw h'.symm
          · exact hw h')

theorem dedupGo_append_dup (seen : List String) (ps : List TokenPurchase)
    (p : TokenPurchase)
    (hp : p.walletAddress ∈ seen ∨ ∃ q ∈ ps, q.walletAddress = p.walletAddress) :
    dedupGo seen (ps ++ [p]) = dedupGo seen ps := by
  induction ps generalizing seen with
  | nil =>
    rcases hp with h | ⟨q, hq, _⟩
    · simp [dedupGo, h]
    · simp at hq
  | cons r rest ih =>
    simp only [List.cons_append, dedupGo]
    split
    · rename_i hmem
      apply ih
      rcases hp with h | ⟨q, hq, hqw⟩
      · exact Or.inl h
      · rcases List.mem_cons.mp hq with hqr | hq'
        · exact Or.inl (by rw [← hqw, hqr]; exact hmem)
        · exact Or.inr ⟨q, hq', hqw⟩
    · rename_i hmem
      congr 1
      apply ih
      rcases hp with h | ⟨q, hq, hqw⟩
      · exact Or.inl (List.mem_cons_of_mem _ h)
      · rcases List.mem_cons.mp hq with hqr | hq'
        · exact Or.inl (by rw [← hqw, hqr]; exact List.mem_cons_self _ _)
        · exact Or.inr ⟨q, hq', hqw⟩

/-- C3: among non-expired events, `uniqueWhales` keeps exactly one event per
wallet — the first-inserted one — and appending a later purchase by an
already-present wallet leaves the unique-whale list and both aggregate totals
unchanged. -/
theorem dedup_first_wins (ps : List TokenPurchase) (w : String) (p : TokenPurchase)
    (hw : ∃ q ∈ ps, q.walletAddress = w)
    (hp : ∃ q ∈ ps, q.walletAddress = p.walletAddress) :
    (uniqueWhales ps).countP (fun q => q.walletAddress == w) = 1 ∧
    (uniqueWhales ps).find? (fun q => q.walletAddress == w) =
      ps.find? (fun q => q.walletAddress == w) ∧
    uniqueWhales (ps ++ [p]) = uniqueWhales ps ∧
    totalAmountUsd (uniqueWhales (ps ++ [p])) = totalAmountUsd (uniqueWhales ps) ∧
    totalAmountSol (uniqueWhales (ps ++ [p])) = totalAmountSol (uniqueWhales ps) := by
  have hfind := dedupGo_find?_eq w [] ps (by simp)
  have happ : uniqueWhales (ps ++ [p]) = uniqueWhales ps :=
    dedupGo_append_dup [] ps p (Or.inr hp)
  refine ⟨?_, hfind, happ, by rw [happ], by rw [happ]⟩
  show (dedupGo [] ps).countP (fun q => q.walletAddress == w) = 1
  have hle := dedupGo_countP_le_one w [] ps
  have hpos : 0 < (dedupGo [] ps).countP (fun q => q.walletAddress == w) := by
    rw [List.countP_pos_iff]
    obtain ⟨q, hq, hqw⟩ := hw
    have hsome : (ps.find? (fun q => q.walletAddress == w)).isSome := by
      rw [List.find?_isSome]
      exact ⟨q, hq, by simp [hqw]⟩
    obtain ⟨r, hr⟩ := Option.isSome_iff_exists.mp hsome
    have hdr : (dedupGo [] ps).find? (fun q => q.walletAddress == w) = some r :=
      hfind.trans hr
    exact ⟨r, List.mem_of_find?_eq_some hdr,
      @List.find?_some _ (fun q => q.walletAddress == w) r _ hdr⟩
  omega

/-- Witness for C3: W1 buys twice (the second time a larger amount); the
unique-whale list keeps exactly the first W1 event, and appending the second
W1 purchase changes neither total. -/
theorem dedup_first_wins_witness :
    (uniqueWhales [wA, wB]).countP (fun q => q.walletAddress == "W1") = 1 ∧
    (uniqueWhales [wA, wB]).find? (fun q => q.walletAddress == "W1") = some wA ∧
    totalAmountUsd (uniqueWhales ([wA, wB] ++ [wAbig])) =
      totalAmountUsd (uniqueWhales [wA, wB]) := by
  have h := dedup_first_wins [wA, wB] "W1" wAbig
    (by exact ⟨wA, by simp, by decide⟩) (by exact ⟨wA, by simp, by decide⟩)
  exact ⟨h.1, h.2.1.trans (by decide), h.2.2.2.1⟩

/- ### C4: threshold exactness -/

/-- C4: with `minWhalesForConsensus = 2`, a window with exactly one unique
whale never qualifies; with exactly two it qualifies and, when the signal
`(tokenMint, 2)` is unseen, the alert is emitted in that same pass; in general
a window qualifies iff `uniqueWhales().length ≥ minWhalesForConsensus`. -/
theorem threshold_exactness (windowMs now : ℤ) (mint : String)
    (ps : List TokenPurchase) (alerted : List String) :
    ((uniqueWhales (filterRecent windowMs now ps)).length = 1 →
      analyzeToken windowMs now 2 mint ps = none) ∧
    ((uniqueWhales (filterRecent windowMs now ps)).length = 2 →
      consensusId mint 2 ∉ alerted →
      ∃ c, analyzeToken windowMs now 2 mint ps = some c ∧ c.totalWhales = 2 ∧
        (analyzePass windowMs now 2 [(mint, ps)] alerted).2 = [c]) ∧
    (∀ minWhales : ℕ,
      (analyzeToken windowMs now minWhales mint ps).isSome = true ↔
        minWhales ≤ (uniqueWhales (filterRecent windowMs now ps)).length) := by
  refine ⟨?_, ?_, ?_⟩
  · intro h1
    simp [analyzeToken, h1]
  · intro h2 hid
    have hc : analyzeToken windowMs now 2 mint ps =
        some (mkConsensus mint (uniqueWhales (filterRecent windowMs now ps))) := by
      simp [analyzeToken, h2]
    have hidc : idOf (mkConsensus mint (uniqueWhales (filterRecent windowMs now ps))) =
        consensusId mint 2 := by
      simp [idOf, mkConsensus, h2]
    refine ⟨mkConsensus mint (uniqueWhales (filterRecent windowMs now ps)), hc,
      by simp [mkConsensus, h2], ?_⟩
    simp [analyzePass, hc, sortByStrengthDesc, insertByStrength, fireAlerts, hidc, hid]
  · intro m
    by_cases h : m ≤ (uniqueWhales (filterRecent windowMs now ps)).length
    · simp [analyzeToken, h]
    · simp [analyzeToken, h]

/-- Witness for C4: the window with only W1 (twice) never fires at threshold 2;
the window with W1 and W2 fires exactly one alert in the same pass. -/
theorem threshold_exactness_witness :
    analyzeToken consensusTimeWindow 600000 2 "T" [wA, wAbig] = none ∧
    (analyzePass consensusTimeWindow 600000 2 [("T", [wA, wB])] []).2.length = 1 := by
  constructor
  · exact (threshold_exactness consensusTimeWindow 600000 "T" [wA, wAbig] []).1 (by decide)
  · obtain ⟨c, _, _, h3⟩ :=
      (threshold_exactness consensusTimeWindow 600000 "T" [wA, wB] []).2.1
        (by decide) (by decide)
    rw [h3]
    rfl

/- ### C9: risk score definition -/

theorem riskLevelOf_spec (s : ℤ) :
    (riskLevelOf s = "VERY HIGH" ↔ 80 ≤ s) ∧
    (riskLevelOf s = "HIGH" ↔ 60 ≤ s ∧ s < 80) ∧
    (riskLevelOf s = "MEDIUM" ↔ 40 ≤ s ∧ s < 60) ∧
    (riskLevelOf s = "LOW" ↔ s < 40) := by
  unfold riskLevelOf
  split_ifs with h1 h2 h3 <;>
    refine ⟨?_, ?_, ?_, ?_⟩ <;>
      constructor <;>
        intro h <;>
          first
            | rfl
            | omega
            | exact absurd h (by decide)
            | (exfalso; omega)

theorem calculateRiskScore_bounds (c : WhaleConsensus) :
    0 ≤ (calculateRiskScore c).2 ∧ (calculateRiskScore c).2 ≤ 100 := by
  simp only [calculateRiskScore]
  split_ifs <;> omega

/-- C9: the risk score is the sum of the whale-count tier, the total-USD tier,
the time-clustering tier and the per-whale-average bonus exactly as the spec
states them; the level thresholds are ≥80 VERY HIGH, ≥60 HIGH, ≥40 MEDIUM,
else LOW; and the score always lies in 0–100. -/
theorem risk_score_spec (c : WhaleConsensus) :
    (calculateRiskScore c).2 = specRiskScore c ∧
    ((calculateRiskScore c).1 = "VERY HIGH" ↔ 80 ≤ (calculateRiskScore c).2) ∧
    ((calculateRiskScore c).1 = "HIGH" ↔
      60 ≤ (calculateRiskScore c).2 ∧ (calculateRiskScore c).2 < 80) ∧
    ((calculateRiskScore c).1 = "MEDIUM" ↔
      40 ≤ (calculateRiskScore c).2 ∧ (calculateRiskScore c).2 < 60) ∧
    ((calculateRiskScore c).1 = "LOW" ↔ (calculateRiskScore c).2 < 40) ∧
    0 ≤ (calculateRiskScore c).2 ∧ (calculateRiskScore c).2 ≤ 100 := by
  have hs := riskLevelOf_spec (calculateRiskScore c).2
  have hb := calculateRiskScore_bounds c
  exact ⟨rfl, hs.1, hs.2.1, hs.2.2.1, hs.2.2.2, hb.1, hb.2⟩

/-- The consensus aggregate the detector builds for wallets W1 and W2 buying
token T at t = 0 and t = 5 min for $200 and $400. -/
def cW : WhaleConsensus :=
  { tokenMint := "T", whales := [wA, wB], totalWhales := 2, totalAmountSol := 3,
    totalAmountUsd := 600, firstPurchaseTime := 0, lastPurchaseTime := 300000,
    consensusStrength := 800 }

/-- Witness for C9: the two-whale, $600, 5-minute-span consensus scores
10 + 10 + 30 + 0 = 50 and is rated MEDIUM. -/
theorem risk_score_spec_witness :
    (calculateRiskScore cW).2 = 50 ∧
    (calculateRiskScore cW).1 = "MEDIUM" := by
  have h := risk_score_spec cW
  have h50 : (calculateRiskScore cW).2 = 50 := by
    norm_num [calculateRiskScore, cW]
  exact ⟨h50, (h.2.2.2.1).mpr (by rw [h50]; norm_num)⟩

/- ### C10: qualifying aggregates always yield BUY or STRONG BUY -/

/-- C10: for every aggregate with at least two whales, non-negative total USD
and an ordered time span, the base trading signal's confidence lies in
[70, 95], so its type is STRONG BUY or BUY and the WEAK BUY and HOLD branches
are unreachable. -/
theorem trading_signal_buy (c : WhaleConsensus) (h2 : 2 ≤ c.totalWhales)
    (hu : 0 ≤ c.totalAmountUsd) (ht : c.firstPurchaseTime ≤ c.lastPurchaseTime) :
    70 ≤ (generateTradingSignal c).2 ∧ (generateTradingSignal c).2 ≤ 95 ∧
    ((generateTradingSignal c).1 = "STRONG BUY" ∨
      (generateTradingSignal c).1 = "BUY") ∧
    (generateTradingSignal c).1 ≠ "WEAK BUY" ∧
    (generateTradingSignal c).1 ≠ "HOLD" := by
  have hw : (2 : ℤ) ≤ (c.totalWhales : ℤ) := by exact_mod_cast h2
  simp only [generateTradingSignal]
  split_ifs <;>
    refine ⟨?_, ?_, ?_, ?_, ?_⟩ <;>
      first
        | omega
        | exact Or.inl rfl
        | exact Or.inr rfl
        | decide
        | (exfalso; omega)

/-- Witness for C10: the two-whale consensus on token T gets a buy-type
signal. -/
theorem trading_signal_buy_witness :
    2 ≤ cW.totalWhales ∧
    ((generateTradingSignal cW).1 = "STRONG BUY" ∨
      (generateTradingSignal cW).1 = "BUY") :=
  ⟨by norm_num [cW],
    (trading_signal_buy cW (by norm_num [cW]) (by norm_num [cW])
      (by norm_num [cW])).2.2.1⟩

/- ### C5: fresh-price recomputation (enhanced monitor) -/

theorem dedupRecomputeGo_usd (price : ℚ) (seen : List String)
    (ps : List TokenPurchase) :
    ∀ q ∈ dedupRecomputeGo price seen ps, q.amountUsd = q.amountSol * price := by
  induction ps generalizing seen with
  | nil => simp [dedupRecomputeGo]
  | cons p rest ih =>
    intro q hq
    simp only [dedupRecomputeGo] at hq
    split at hq
    · exact ih seen q hq
    · rcases List.mem_cons.mp hq with h | h
      · rw [h]
      · exact ih _ q h

theorem foldl_add_shift (f : TokenPurchase → ℚ) (ps : List TokenPurchase) (a : ℚ) :
    ps.foldl (fun s p => s + f p) a = a + ps.foldl (fun s p => s + f p) 0 := by
  induction ps generalizing a with
  | nil => simp
  | cons p rest ih =>
    simp only [List.foldl_cons]
    rw [ih (a + f p), ih (0 + f p)]
    ring

theorem totalUsd_eq_totalSol_mul (price : ℚ) (ps : List TokenPurchase)
    (h : ∀ q ∈ ps, q.amountUsd = q.amountSol * price) :
    totalAmountUsd ps = totalAmountSol ps * price := by
  induction ps with
  | nil => simp [totalAmountUsd, totalAmountSol]
  | cons p rest ih =>
    have hp := h p (List.mem_cons_self _ _)
    have hr := ih (fun q hq => h q (List.mem_cons_of_mem _ hq))
    simp only [totalAmountUsd, totalAmountSol, List.foldl_cons] at *
    rw [foldl_add_shift (fun q => q.amountUsd) rest,
      foldl_add_shift (fun q => q.amountSol) rest] at *
    rw [hp]
    ring_nf
    ring_nf at hr
    linarith [hr]

/-- C5: in the enhanced evaluation, every event entering the aggregates has
`amountUsd = amountSol × currentSolPrice` (recomputed with the price passed to
the evaluation, never carried forward), the aggregate USD total is the SOL
total times the current price, and the same event evaluated under two
different prices yields different `amountUsd` values (all parsed purchases
have positive SOL amounts). -/
theorem fresh_price_recompute (price : ℚ) (ps : List TokenPurchase) :
    (∀ q ∈ uniqueWhalesEnhanced price ps, q.amountUsd = q.amountSol * price) ∧
    totalAmountUsd (uniqueWhalesEnhanced price ps) =
      totalAmountSol (uniqueWhalesEnhanced price ps) * price ∧
    (∀ (p : TokenPurchase) (price2 : ℚ), p.amountSol ≠ 0 → price ≠ price2 →
      (uniqueWhalesEnhanced price (p :: ps)).head?.map TokenPurchase.amountUsd ≠
        (uniqueWhalesEnhanced price2 (p :: ps)).head?.map TokenPurchase.amountUsd) := by
  have husd := dedupRecomputeGo_usd price [] ps
  refine ⟨husd, totalUsd_eq_totalSol_mul price _ husd, ?_⟩
  intro p price2 hs hp
  have h1 : (uniqueWhalesEnhanced price (p :: ps)).head? =
      some { p with amountUsd := p.amountSol * price } := by
    simp [uniqueWhalesEnhanced, dedupRecomputeGo]
  have h2 : (uniqueWhalesEnhanced price2 (p :: ps)).head? =
      some { p with amountUsd := p.amountSol * price2 } := by
    simp [uniqueWhalesEnhanced, dedupRecomputeGo]
  rw [h1, h2]
  simp only [Option.map_some']
  intro h
  have h' : p.amountSol * price = p.amountSol * price2 := by
    simpa using Option.some.inj h
  exact hp (mul_left_cancel₀ hs h')

/-- Witness for C5: at SOL price 150 the representative W1 event carries
`1 × 150`, and evaluating the same window at price 200 yields a different
`amountUsd`. -/
theorem fresh_price_recompute_witness :
    ({ wA with amountUsd := wA.amountSol * 150 } : TokenPurchase) ∈
        uniqueWhalesEnhanced 150 [wA, wB] ∧
    ({ wA with amountUsd := wA.amountSol * 150 } : TokenPurchase).amountUsd =
      ({ wA with amountUsd := wA.amountSol * 150 } : TokenPurchase).amountSol * 150 ∧
    (uniqueWhalesEnhanced 150 (wA :: [wB])).head?.map TokenPurchase.amountUsd ≠
      (uniqueWhalesEnhanced 200 (wA :: [wB])).head?.map TokenPurchase.amountUsd := by
  have h := fresh_price_recompute 150 [wB]
  have hmem : ({ wA with amountUsd := wA.amountSol * 150 } : TokenPurchase) ∈
      uniqueWhalesEnhanced 150 [wA, wB] := by
    simp [uniqueWhalesEnhanced, dedupRecomputeGo, wA, wB]
  exact ⟨hmem, (fresh_price_recompute 150 [wA, wB]).1 _ hmem,
    h.2.2 wA 200 (by norm_num [wA]) (by norm_num)⟩

/- ### C1: at-most-once alerting -/

theorem fireAlerts_alerted_mono (cs : List WhaleConsensus) (alerted : List String)
    (x : String) (hx : x ∈ alerted) : x ∈ (fireAlerts cs alerted).1 := by
  induction cs generalizing alerted with
  | nil => simpa [fireAlerts] using hx
  | cons c rest ih =>
    simp only [fireAlerts]
    split
    · exact ih alerted hx
    · simpa using ih (idOf c :: alerted) (List.mem_cons_of_mem _ hx)

theorem fireAlerts_countP_eq_zero (cs : List WhaleConsensus) (alerted : List String)
    (x : String) (hx : x ∈ alerted) :
    (fireAlerts cs alerted).2.countP (fun c => idOf c == x) = 0 := by
  induction cs generalizing alerted with
  | nil => simp [fireAlerts]
  | cons c rest ih =>
    simp only [fireAlerts]
    split
    · exact ih alerted hx
    · rename_i hmem
      have hne : (idOf c == x) = false := by
        rw [beq_eq_false_iff_ne]
        rintro rfl
        exact hmem hx
      simpa [List.countP_cons, hne] using
        ih (idOf c :: alerted) (List.mem_cons_of_mem _ hx)

theorem fireAlerts_countP_le_one (cs : List WhaleConsensus) (alerted : List String)
    (x : String) :
    (fireAlerts cs alerted).2.countP (fun c => idOf c == x) ≤ 1 := by
  induction cs generalizing alerted with
  | nil => simp [fireAlerts]
  | cons c rest ih =>
    simp only [fireAlerts]
    split
    · exact ih alerted
    · by_cases hcx : idOf c = x
      · subst hcx
        have h0 := fireAlerts_countP_eq_zero rest (idOf c :: alerted) (idOf c)
          (List.mem_cons_self _ _)
        simp [List.countP_cons, h0]
      · have hne : (idOf c == x) = false := beq_eq_false_iff_ne.mpr hcx
        simpa [List.countP_cons, hne] using ih (idOf c :: alerted)

theorem fireAlerts_mem_of_countP_pos (cs : List WhaleConsensus)
    (alerted : List String) (x : String)
    (h : 0 < (fireAlerts cs alerted).2.countP (fun c => idOf c == x)) :
    x ∈ (fireAlerts cs alerted).1 := by
  induction cs generalizing alerted with
  | nil => simp [fireAlerts] at h
  | cons c rest ih =>
    by_cases hmem : idOf c ∈ alerted
    · rw [show fireAlerts (c :: rest) alerted = fireAlerts rest alerted from by
        simp [fireAlerts, hmem]] at h ⊢
      exact ih alerted h
    · rw [show fireAlerts (c :: rest) alerted =
          ((fireAlerts rest (idOf c :: alerted)).1,
            c :: (fireAlerts rest (idOf c :: alerted)).2) from by
        simp [fireAlerts, hmem]] at h ⊢
      by_cases hcx : idOf c = x
      · exact fireAlerts_alerted_mono rest _ x (hcx ▸ List.mem_cons_self _ _)
      · have hne : (idOf c == x) = false := beq_eq_false_iff_ne.mpr hcx
        simp only [List.countP_cons, hne] at h
        exact ih (idOf c :: alerted) (by simpa using h)

theorem analyzePass_alerted_mono (windowMs now : ℤ) (minWhales : ℕ)
    (windows : List (String × List TokenPurchase)) (alerted : List String)
    (x : String) (hx : x ∈ alerted) :
    x ∈ (analyzePass windowMs now minWhales windows alerted).1 :=
  fireAlerts_alerted_mono _ alerted x hx

theorem analyzePass_countP_eq_zero (windowMs now : ℤ) (minWhales : ℕ)
    (windows : List (String × List TokenPurchase)) (alerted : List String)
    (x : String) (hx : x ∈ alerted) :
    (analyzePass windowMs now minWhales windows alerted).2.countP
      (fun c => idOf c == x) = 0 :=
  fireAlerts_countP_eq_zero _ alerted x hx

theorem analyzePass_countP_le_one (windowMs now : ℤ) (minWhales : ℕ)
    (windows : List (String × List TokenPurchase)) (alerted : List String)
    (x : String) :
    (analyzePass windowMs now minWhales windows alerted).2.countP
      (fun c => idOf c == x) ≤ 1 :=
  fireAlerts_countP_le_one _ alerted x

theorem runPasses_countP_eq_zero (windowMs : ℤ) (minWhales : ℕ)
    (cycles : List CycleInput) (alerted : List String) (x : String)
    (hx : x ∈ alerted) :
    (runPasses windowMs minWhales cycles alerted).2.countP
      (fun c => idOf c == x) = 0 := by
  induction cycles generalizing alerted with
  | nil => simp [runPasses]
  | cons cyc rest ih =>
    simp only [runPasses, List.countP_append]
    rw [analyzePass_countP_eq_zero _ _ _ _ alerted x hx,
      ih _ (analyzePass_alerted_mono _ _ _ _ alerted x hx)]

theorem runPasses_countP_le_one (windowMs : ℤ) (minWhales : ℕ)
    (cycles : List CycleInput) (alerted : List String) (x : String) :
    (runPasses windowMs minWhales cycles alerted).2.countP
      (fun c => idOf c == x) ≤ 1 := by
  induction cycles generalizing alerted with
  | nil => simp [runPasses]
  | cons cyc rest ih =>
    simp only [runPasses, List.countP_append]
    rcases Nat.eq_zero_or_pos
      ((analyzePass windowMs cyc.now minWhales cyc.windows alerted).2.countP
        (fun c => idOf c == x)) with h0 | hpos
    · rw [h0]
      simpa using ih (analyzePass windowMs cyc.now minWhales cyc.windows alerted).1
    · have h1 := analyzePass_countP_le_one windowMs cyc.now minWhales cyc.windows alerted x
      have hmem : x ∈ (analyzePass windowMs cyc.now minWhales cyc.windows alerted).1 :=
        fireAlerts_mem_of_countP_pos _ alerted x hpos
      rw [runPasses_countP_eq_zero windowMs minWhales rest _ x hmem]
      omega

theorem countP_le_countP_of_imp (l : List WhaleConsensus)
    (p q : WhaleConsensus → Bool) (h : ∀ a ∈ l, p a = true → q a = true) :
    l.countP p ≤ l.countP q := by
  induction l with
  | nil => simp
  | cons a rest ih =>
    have hr := ih (fun b hb => h b (List.mem_cons_of_mem _ hb))
    by_cases hp : p a = true
    · have e1 : (if p a = true then 1 else 0) = 1 := by simp [hp]
      have e2 : (if q a = true then 1 else 0) = 1 := by
        simp [h a (List.mem_cons_self _ _) hp]
      simp only [List.countP_cons]
      omega
    · have e1 : (if p a = true then 1 else 0) = 0 := by simp [hp]
      have e2 : (if q a = true then 1 else 0) = 0 ∨
          (if q a = true then 1 else 0) = 1 := by
        split <;> simp
      simp only [List.countP_cons]
      rcases e2 with e2 | e2 <;> omega

/-- C1: over a whole detector lifetime (any sequence of evaluation passes
starting from the empty fired-signal set, with arbitrary window contents each
pass — including a window that empties and later refills to the same count),
the alert sink receives at most one alert carrying the signal `(M, N)`,
because `alertedConsensus` is only ever added to and checked, never pruned. -/
theorem at_most_once_alert (windowMs : ℤ) (minWhales : ℕ)
    (cycles : List CycleInput) (M : String) (N : ℕ) :
    countSignal M N (runPasses windowMs minWhales cycles []).2 ≤ 1 := by
  have hmono : countSignal M N (runPasses windowMs minWhales cycles []).2 ≤
      (runPasses windowMs minWhales cycles []).2.countP
        (fun c => idOf c == consensusId M N) := by
    apply countP_le_countP_of_imp
    intro c _ hc
    have h1 : c.tokenMint = M ∧ c.totalWhales = N := by
      constructor <;> simp_all
    simp [idOf, h1.1, h1.2]
  exact le_trans hmono (runPasses_countP_le_one windowMs minWhales cycles [] _)

/- ### C6: purge of stored state happens on insert only, not on evaluate -/

/-- Detector state whose stored window for token T still holds the t = 0
event; examined at now = 16 min that event is 16 min old. -/
def staleState : DetectorState := ⟨[("T", [wA])], []⟩

/-- Counterexample to C6 as stated: running a full evaluation cycle at
t = 16 min (no new purchases) leaves the 16-minute-old event inside the
stored per-token sequence — `analyzeWhaleConsensus` filters a local copy and
never writes the purged list back. -/
theorem eager_purge_counterexample :
    consensusTimeWindow < 960000 - wA.timestamp ∧
    wA ∈ getWindow "T"
      (runCycle consensusTimeWindow 960000 2 (fun _ => Except.ok []) []
        staleState).1.recentWhalePurchases := by
  exact ⟨by decide, by decide⟩

theorem getWindow_setWindow_self (mint : String) (l : List TokenPurchase)
    (ws : List (String × List TokenPurchase)) :
    getWindow mint (setWindow mint l ws) = l := by
  induction ws with
  | nil => simp [setWindow, getWindow]
  | cons w rest ih =>
    simp only [setWindow]
    split
    · simp [getWindow]
    · rename_i hne
      have hne' : (w.1 == mint) = false := by simpa using hne
      simp only [getWindow, List.find?_cons, hne']
      exact ih

/-- C6 amended: the insert path does purge the stored state — after
`addPurchasesToConsensusTracking` inserts a purchase, the stored sequence for
that token contains no event older than the window at that instant; the
evaluation pass, however, only filters the values it reads and leaves the
stored state untouched (see the counterexample). -/
theorem purge_on_insert (windowMs now : ℤ) (ws : List (String × List TokenPurchase))
    (p q : TokenPurchase)
    (hq : q ∈ getWindow p.tokenMint (addPurchase windowMs now ws p)) :
    now - q.timestamp ≤ windowMs := by
  rw [addPurchase, getWindow_setWindow_self] at hq
  simp only [filterRecent, List.mem_filter, decide_eq_true_eq] at hq
  exact hq.2

/-- Witness for the amended C6: inserting W2's purchase at t = 5 min leaves it
in the stored window, and it is within the window at that instant. -/
theorem purge_on_insert_witness :
    wB ∈ getWindow "T" (addPurchase consensusTimeWindow 300000 [] wB) ∧
    300000 - wB.timestamp ≤ consensusTimeWindow :=
  ⟨by decide, purge_on_insert consensusTimeWindow 300000 [] wB wB (by decide)⟩

/- ### C7: partial failure isolation -/

theorem ingest_congr (windowMs now : ℤ) (wallets : List String)
    (f g : String → List TokenPurchase) (h : ∀ w ∈ wallets, f w = g w) :
    ∀ acc, wallets.foldl
        (fun acc w => addPurchasesToConsensusTracking windowMs now (f w) acc) acc =
      wallets.foldl
        (fun acc w => addPurchasesToConsensusTracking windowMs now (g w) acc) acc := by
  induction wallets with
  | nil => intro acc; rfl
  | cons w rest ih =>
    intro acc
    simp only [List.foldl_cons]
    rw [h w (List.mem_cons_self _ _)]
    exact ih (fun v hv => h v (List.mem_cons_of_mem _ hv)) _

/-- C7: when the fetch for wallet A throws, the cycle behaves exactly as if A
had reported no purchases — every other wallet's events are still ingested
and analysed in the same cycle, so they can still trigger a consensus
alert. -/
theorem wallet_failure_isolation (windowMs now : ℤ) (minWhales : ℕ)
    (fetch : String → Except String (List TokenPurchase)) (wallets : List String)
    (st : DetectorState) (A : String) (err : String)
    (hA : fetch A = Except.error err) :
    runCycle windowMs now minWhales fetch wallets st =
      runCycle windowMs now minWhales
        (fun w => if w = A then Except.ok [] else fetch w) wallets st := by
  have hfs : ∀ w ∈ wallets, fetchSafe fetch w =
      fetchSafe (fun w => if w = A then Except.ok [] else fetch w) w := by
    intro w _
    by_cases hw : w = A
    · subst hw
      simp [fetchSafe, hA]
    · simp [fetchSafe, hw]
  simp only [runCycle]
  rw [ingest_congr windowMs now wallets _ _ hfs st.recentWhalePurchases]

/-- A cycle's per-wallet fetches: A times out, B and C report one purchase of
token T each. -/
def fetchScenario : String → Except String (List TokenPurchase) := fun w =>
  if w = "A" then Except.error "timeout"
  else if w = "B" then Except.ok [wB]
  else if w = "C" then Except.ok [wC]
  else Except.ok []

/-- Witness for C7: with wallet A failing, the cycle equals the cycle in which
A merely has no events, and the B + C purchases still produce exactly one
consensus alert in that same cycle. -/
theorem wallet_failure_isolation_witness :
    runCycle consensusTimeWindow 300000 2 fetchScenario ["A", "B", "C"] ⟨[], []⟩ =
      runCycle consensusTimeWindow 300000 2
        (fun w => if w = "A" then Except.ok [] else fetchScenario w)
        ["A", "B", "C"] ⟨[], []⟩ ∧
    (runCycle consensusTimeWindow 300000 2 fetchScenario
      ["A", "B", "C"] ⟨[], []⟩).2.length = 1 := by
  refine ⟨wallet_failure_isolation consensusTimeWindow 300000 2 fetchScenario
    ["A", "B", "C"] ⟨[], []⟩ "A" "timeout" (by rfl), ?_⟩
  decide

/- ### C8: configuration sanitisation at load time -/

/-- Counterexample to C8 as stated: the configured value −1 is strictly less
than 1, yet `minWhalesForConsensus || 2` keeps it (only `0` is falsy in
JavaScript), so the effective threshold is −1 < 1. -/
theorem config_clamp_counterexample :
    (ConfigSettings.mk 50 30 (-1)).minWhalesForConsensus < 1 ∧
    (loadManualWalletsSettings
      (ConfigSettings.mk 50 30 (-1))).MIN_WHALES_FOR_CONSENSUS < 1 :=
  ⟨by decide, by decide⟩

/-- C8 amended: at load time the check interval is clamped to the 30000 ms
floor, and a configured `minWhalesForConsensus` of 0 is replaced by the
default 2; a negative configured value, however, is truthy under `||` and is
kept unclamped. -/
theorem config_clamp_amended (s : ConfigSettings) :
    (s.minWhalesForConsensus = 0 →
      (loadManualWalletsSettings s).MIN_WHALES_FOR_CONSENSUS = 2) ∧
    (s.minWhalesForConsensus ≠ 0 →
      (loadManualWalletsSettings s).MIN_WHALES_FOR_CONSENSUS =
        s.minWhalesForConsensus) ∧
    30000 ≤ (loadManualWalletsSettings s).CHECK_INTERVAL := by
  refine ⟨?_, ?_, le_max_right _ _⟩
  · intro h
    simp [loadManualWalletsSettings, jsNumOr, h]
  · intro h
    simp [loadManualWalletsSettings, jsNumOr, h]

/-- Witness for the amended C8: a configured 0 becomes the default 2, and a
5-second interval is clamped up to 30000 ms. -/
theorem config_clamp_amended_witness :
    (loadManualWalletsSettings (ConfigSettings.mk 50 5 0)).MIN_WHALES_FOR_CONSENSUS = 2 ∧
    30000 ≤ (loadManualWalletsSettings (ConfigSettings.mk 50 5 0)).CHECK_INTERVAL :=
  ⟨(config_clamp_amended (ConfigSettings.mk 50 5 0)).1 (by decide),
    (config_clamp_amended (ConfigSettings.mk 50 5 0)).2.2⟩

end Whale
